import Mathlib

/-!
Shallow embedding of the c64image converter (internal/c64image/converter.go).

Colors are 8-bit RGBA quadruples modelled with natural-number channels; the
Go `float64` computations are modelled over the real numbers (exact real
arithmetic as the idealization of IEEE doubles), except for the purely
integral geometry (target dimensions, block sizes), which is modelled over
`ℚ`/`ℤ`/`ℕ` exactly as the source computes it.
-/

namespace C64

/-- Go `color.RGBA`: four 8-bit channels. -/
structure RGBA where
  r : ℕ
  g : ℕ
  b : ℕ
  a : ℕ
deriving DecidableEq, Repr

/-- Go struct `cielab` (three `float64` fields). -/
structure cielab where
  l : ℝ
  a : ℝ
  b : ℝ

/-- Go struct `xyz` (three `float64` fields). -/
structure xyz where
  x : ℝ
  y : ℝ
  z : ℝ

/-- Go struct `rgb` (three `float64` accumulator fields). -/
structure rgb where
  r : ℝ
  g : ℝ
  b : ℝ

/-- The Go distance-method enumeration `Method`. -/
inductive Method where
  | RGBMethod
  | CIE76
  | CIE94
  | CIE2000
deriving DecidableEq, Repr

/-- `C64Colors` palette from converter.go (16 fixed RGBA entries). -/
def C64Colors : List RGBA :=
  [⟨0x00, 0x00, 0x00, 0xFF⟩, --  0 - black
   ⟨0xFF, 0xFF, 0xFF, 0xFF⟩, --  1 - white
   ⟨0x67, 0x37, 0x2B, 0xFF⟩, --  2 - red
   ⟨0x6F, 0xA3, 0xB1, 0xFF⟩, --  3 - cyan
   ⟨0x6F, 0x3C, 0x85, 0xFF⟩, --  4 - purple
   ⟨0x58, 0x8C, 0x43, 0xFF⟩, --  5 - green
   ⟨0x34, 0x28, 0x79, 0xFF⟩, --  6 - blue
   ⟨0xB7, 0xC6, 0x6E, 0xFF⟩, --  7 - yellow
   ⟨0x6F, 0x4F, 0x25, 0xFF⟩, --  8 - orange
   ⟨0x42, 0x39, 0x00, 0xFF⟩, --  9 - brown
   ⟨0x99, 0x66, 0x59, 0xFF⟩, -- 10 - light red
   ⟨0x43, 0x43, 0x43, 0xFF⟩, -- 11 - dark grey
   ⟨0x6B, 0x6B, 0x6B, 0xFF⟩, -- 12 - grey
   ⟨0x9A, 0xD1, 0x83, 0xFF⟩, -- 13 - light green
   ⟨0x6B, 0x5E, 0xB4, 0xFF⟩, -- 14 - light blue
   ⟨0x95, 0x95, 0x95, 0xFF⟩] -- 15 - light grey

/-- Array access `C64Colors[i]`; the source only indexes with `i < 16`. -/
def paletteColor (i : ℕ) : RGBA := C64Colors.getD i ⟨0, 0, 0, 0xFF⟩

/-- Go constant `deg2rad = math.Pi / 180.`. -/
noncomputable def deg2rad : ℝ := Real.pi / 180

/-- Go constant `rad2deg = 180. / math.Pi`. -/
noncomputable def rad2deg : ℝ := 180 / Real.pi

/-- Go `almostZero(x) = math.Abs(x) < 1e-8`. -/
def almostZero (x : ℝ) : Prop := |x| < 1e-8

noncomputable instance (x : ℝ) : Decidable (almostZero x) := by
  unfold almostZero
  infer_instance

/-- Go `math.Atan2(y, x)`, modelled as the argument of the complex number
`x + y·i` (principal value in `(-π, π]`, matching `atan2`). -/
noncomputable def atan2 (y x : ℝ) : ℝ := Complex.arg ⟨x, y⟩

/-- `convertRGBAtoXYZ` from converter.go: sRGB gamma expansion, scale to
[0,100], then the sRGB→XYZ matrix. -/
noncomputable def convertRGBAtoXYZ (rgba : RGBA) : xyz :=
  let r : ℝ := (rgba.r : ℝ) / 255.0
  let g : ℝ := (rgba.g : ℝ) / 255.0
  let b : ℝ := (rgba.b : ℝ) / 255.0
  let r1 : ℝ := if r > 0.04045 then ((r + 0.055) / 1.055) ^ (2.4 : ℝ) else r / 12.92
  let g1 : ℝ := if g > 0.04045 then ((g + 0.055) / 1.055) ^ (2.4 : ℝ) else g / 12.92
  let b1 : ℝ := if b > 0.04045 then ((b + 0.055) / 1.055) ^ (2.4 : ℝ) else b / 12.92
  let r2 : ℝ := r1 * 100.0
  let g2 : ℝ := g1 * 100.0
  let b2 : ℝ := b1 * 100.0
  { x := 0.4124564 * r2 + 0.3575761 * g2 + 0.1804375 * b2
    y := 0.2126729 * r2 + 0.7151522 * g2 + 0.0721750 * b2
    z := 0.0193339 * r2 + 0.1191920 * g2 + 0.9503041 * b2 }

/-- `convertRGBAtoCIELAB` from converter.go (D65 white point). -/
noncomputable def convertRGBAtoCIELAB (rgba : RGBA) : cielab :=
  let q := convertRGBAtoXYZ rgba
  let Xn : ℝ := 95.047
  let Yn : ℝ := 100.0
  let Zn : ℝ := 108.883
  let f : ℝ → ℝ := fun t =>
    if t > ((24 / 116 : ℝ)) ^ (3 : ℕ) then t ^ ((1 : ℝ) / 3)
    else (841 / 108) * t + 16 / 116
  { l := 116 * f (q.y / Yn) - 16
    a := 500 * (f (q.x / Xn) - f (q.y / Yn))
    b := 200 * (f (q.y / Yn) - f (q.z / Zn)) }

/-- `rgbDistance` from converter.go: sum of squared channel differences. -/
noncomputable def rgbDistance (color1 color2 : RGBA) : ℝ :=
  ((color1.r : ℝ) - (color2.r : ℝ)) ^ (2 : ℕ) +
  ((color1.g : ℝ) - (color2.g : ℝ)) ^ (2 : ℕ) +
  ((color1.b : ℝ) - (color2.b : ℝ)) ^ (2 : ℕ)

/-- `cie76distance` from converter.go.  The last term is `(c2.b - c2.b)²`,
exactly as written in the source (the `b2 - b2` legacy slip). -/
noncomputable def cie76distance (c1 c2 : cielab) : ℝ :=
  (c2.l - c1.l) ^ (2 : ℕ) + (c2.a - c1.a) ^ (2 : ℕ) + (c2.b - c2.b) ^ (2 : ℕ)

/-- `cie94distance` from converter.go. -/
noncomputable def cie94distance (col1 col2 : cielab) : ℝ :=
  let xC1 := Real.sqrt (col1.a * col1.a + col1.b * col1.b)
  let xC2 := Real.sqrt (col2.a * col2.a + col2.b * col2.b)
  let xDL := col2.l - col1.l
  let xDC := xC2 - xC1
  let xDE := Real.sqrt ((col1.l - col2.l) ^ (2 : ℕ) +
    (col1.a - col2.a) ^ (2 : ℕ) +
    (col1.b - col2.b) ^ (2 : ℕ))
  let xDH0 := xDE * xDE - xDL * xDL - xDC * xDC
  let xDH := if xDH0 > 0 then Real.sqrt xDH0 else 0
  let xSC := 1 + (0.045 * xC1)
  let xSH := 1 + (0.015 * xC1)
  let xDL1 := xDL / 1
  let xDC1 := xDC / (1 * xSC)
  let xDH1 := xDH / (1 * xSH)
  xDL1 * xDL1 + xDC1 * xDC1 + xDH1 * xDH1

/-- `cielab2hue` from converter.go: `atan2(b, a)` in degrees. -/
noncomputable def cielab2hue (a b : ℝ) : ℝ := atan2 b a * rad2deg

/-- `cie2000distance` from converter.go, line for line; Go's reassignments of
`xC1`, `xC2`, `xNN` become primed/numbered lets. -/
noncomputable def cie2000distance (col1 col2 : cielab) : ℝ :=
  let xC1 := Real.sqrt (col1.a * col1.a + col1.b * col1.b)
  let xC2 := Real.sqrt (col2.a * col2.a + col2.b * col2.b)
  let xCX := (xC1 + xC2) / 2
  let xGX := 0.5 * (1 - Real.sqrt (xCX ^ (7 : ℕ) / (xCX ^ (7 : ℕ) + (25 : ℝ) ^ (7 : ℕ))))
  let xNN1 := (1 + xGX) * col1.a
  let xC1' := Real.sqrt (xNN1 * xNN1 + col1.b * col1.b)
  let xH1 := cielab2hue xNN1 col1.b
  let xNN2 := (1 + xGX) * col2.a
  let xC2' := Real.sqrt (xNN2 * xNN2 + col2.b * col2.b)
  let xH2 := cielab2hue xNN2 col2.b
  let xDL := col2.l - col1.l
  let xDC := xC2' - xC1'
  let xDH0 : ℝ :=
    if almostZero (xC1' * xC2') then 0
    else
      let xNN := xH2 - xH1
      if |xNN| ≤ 180 then xH2 - xH1
      else if xNN > 180 then xH2 - xH1 - 360
      else xH2 - xH1 + 360
  let xDH := 2 * Real.sqrt (xC1' * xC2') * Real.sin (deg2rad * (xDH0 / 2))
  let xLX := (col1.l + col2.l) / 2
  let xCY := (xC1' + xC2') / 2
  let xHX : ℝ :=
    if almostZero (xC1' * xC2') then xH1 + xH2
    else
      let xNN := |xH1 - xH2|
      if xNN > 180 then
        (if xH2 + xH1 < 360 then (xH1 + xH2 + 360) / 2 else (xH1 + xH2 - 360) / 2)
      else (xH1 + xH2) / 2
  let xTX := 1 - 0.17 * Real.cos (deg2rad * (xHX - 30)) +
    0.24 * Real.cos (deg2rad * (2 * xHX)) +
    0.32 * Real.cos (deg2rad * (3 * xHX + 6)) -
    0.20 * Real.cos (deg2rad * (4 * xHX - 63))
  let xPH := 30 * Real.exp ((-((xHX - 275) / 25)) * ((xHX - 275) / 25))
  let xRC := 2 * Real.sqrt (xCY ^ (7 : ℕ) / (xCY ^ (7 : ℕ) + (25 : ℝ) ^ (7 : ℕ)))
  let xSL := 1 + (0.015 * (xLX - 50) * (xLX - 50)) /
    Real.sqrt (20 + (xLX - 50) * (xLX - 50))
  let xSC := 1 + 0.045 * xCY
  let xSH := 1 + 0.015 * xCY * xTX
  let xRT := -Real.sin (deg2rad * 2 * xPH) * xRC
  let xDL1 := xDL / xSL
  let xDC1 := xDC / xSC
  let xDH1 := xDH / xSH
  xDL1 * xDL1 + xDC1 * xDC1 + xDH1 * xDH1 + xRT * xDC1 * xDH1

/-- `closestC64Color`'s loop body: one iteration of
`for i, c64Color := range C64Colors`.  The accumulator is
`(bestIndex, bestDistance)`; `none` models the initial `math.Inf(1)`
(every real `deltaE` satisfies `deltaE < +Inf`). -/
noncomputable def distStep (color : cielab) (rgbColor : RGBA) (method : Method)
    (acc : ℕ × Option ℝ) (i : ℕ) : ℕ × Option ℝ :=
  let c64Color := paletteColor i
  let lab2 := convertRGBAtoCIELAB c64Color
  let deltaE : ℝ :=
    match method with
    | .RGBMethod => rgbDistance rgbColor c64Color
    | .CIE76 => cie76distance color lab2
    | .CIE94 => cie94distance color lab2
    | .CIE2000 => cie2000distance color lab2
  match acc.2 with
  | none => (i, some deltaE)
  | some best => if deltaE < best then (i, some deltaE) else acc

/-- `closestC64Color` from converter.go: index of the palette entry at
minimal distance (strict `<`, so the first minimum wins). -/
noncomputable def closestC64Color (color : cielab) (rgbColor : RGBA)
    (method : Method) : ℕ :=
  ((List.range 16).foldl (distStep color rgbColor method) (0, none)).1

/-- The in-memory pixel grid (`image.RGBA` with `Rect = (0,0,w,h)`).
`pix` is total; reads and writes outside the bounds are governed by
`RGBAAt`/`SetRGBA` below, as in Go's image package. -/
structure GoImage where
  w : ℕ
  h : ℕ
  pix : ℤ → ℤ → RGBA

/-- Go `(*image.RGBA).RGBAAt`: zero RGBA outside the bounds. -/
def GoImage.RGBAAt (img : GoImage) (x y : ℤ) : RGBA :=
  if 0 ≤ x ∧ x < (img.w : ℤ) ∧ 0 ≤ y ∧ y < (img.h : ℤ) then img.pix x y
  else ⟨0, 0, 0, 0⟩

/-- Go `(*image.RGBA).SetRGBA`: a silent no-op outside the bounds. -/
def GoImage.SetRGBA (img : GoImage) (x y : ℤ) (c : RGBA) : GoImage :=
  if 0 ≤ x ∧ x < (img.w : ℤ) ∧ 0 ≤ y ∧ y < (img.h : ℤ) then
    { img with pix := fun x' y' => if x' = x ∧ y' = y then c else img.pix x' y' }
  else img

/-- Go rectangle `image.Rectangle` as four coordinates (Min.X, Min.Y,
Max.X, Max.Y). -/
structure GoRect where
  x0 : ℤ
  y0 : ℤ
  x1 : ℤ
  y1 : ℤ
deriving DecidableEq, Repr

/-- Go `image.Rect(x0,y0,x1,y1)`: swaps each coordinate pair into order. -/
def imageRect (x0 y0 x1 y1 : ℤ) : GoRect :=
  ⟨min x0 x1, min y0 y1, max x0 x1, max y0 y1⟩

/-- The integer interval `[lo, hi)` traversed by a Go
`for v := lo; v < hi; v++` loop. -/
def intsRange (lo hi : ℤ) : List ℤ :=
  List.map (fun k : ℕ => lo + (k : ℤ)) (List.range (hi - lo).toNat)

/-- The body of `meanBlockColor`'s inner loop: accumulate one pixel's Lab and
RGB channels into the running sums. -/
noncomputable def blockSumStep (img : GoImage) (x : ℤ) (acc2 : cielab × rgb)
    (y : ℤ) : cielab × rgb :=
  let rgbColor := img.RGBAAt x y
  let lab := convertRGBAtoCIELAB rgbColor
  (⟨acc2.1.l + lab.l, acc2.1.a + lab.a, acc2.1.b + lab.b⟩,
   ⟨acc2.2.r + (rgbColor.r : ℝ), acc2.2.g + (rgbColor.g : ℝ),
    acc2.2.b + (rgbColor.b : ℝ)⟩)

/-- The accumulation loops of `meanBlockColor`: channel sums over
`[x0,x1) × [y0,y1)` in both Lab and RGB space (x outer, y inner). -/
noncomputable def blockSums (img : GoImage) (rect : GoRect) : cielab × rgb :=
  (intsRange rect.x0 rect.x1).foldl
    (fun acc x => (intsRange rect.y0 rect.y1).foldl (blockSumStep img x) acc)
    (⟨0, 0, 0⟩, ⟨0, 0, 0⟩)

/-- Go `uint8(f)` applied to the nonnegative in-range averages produced by
`meanBlockColor`: truncation of a `float64` to an integer. -/
noncomputable def u8 (x : ℝ) : ℕ := (⌊x⌋).toNat

/-- `meanBlockColor` from converter.go: averages a block and returns the Lab
and (truncated) RGBA means.  The division by `pixelCount` is performed with
no guard for a zero-area rectangle. -/
noncomputable def meanBlockColor (img : GoImage) (rect : GoRect) : cielab × RGBA :=
  let s := blockSums img rect
  let pixelCount : ℝ := (((rect.x1 - rect.x0) * (rect.y1 - rect.y0) : ℤ) : ℝ)
  (⟨s.1.l / pixelCount, s.1.a / pixelCount, s.1.b / pixelCount⟩,
   ⟨u8 (s.2.r / pixelCount), u8 (s.2.g / pixelCount), u8 (s.2.b / pixelCount), 255⟩)

/-- `aspectRatio` of `ConvertImage`: `W / H` as exact (real-modelled)
division; `ℚ` suffices for the integral inputs. -/
def aspectRatioQ (img : GoImage) : ℚ := (img.w : ℚ) / (img.h : ℚ)

/-- `targetHeight` of `ConvertImage`:
`int(math.Ceil(float64(targetWidth) / aspectRatio))` with `targetWidth = 320`. -/
def targetHeightZ (img : GoImage) : ℤ := Int.ceil ((320 : ℚ) / aspectRatioQ img)

/-- `blockWidth` of `ConvertImage`:
`int(float64(W) / float64(targetWidth/2))`, i.e. `⌊W / 160⌋`. -/
def blockWidthN (img : GoImage) : ℕ := img.w / 160

/-- `blockHeight` of `ConvertImage`: `int(float64(H) / float64(targetHeight))`. -/
def blockHeightN (img : GoImage) : ℕ := img.h / (targetHeightZ img).toNat

/-- The block rectangle and palette lookup for target cell `(i, j)`:
`closestC64Color(meanBlockColor(img, Rect(i·bw, j·bh, (i+1)·bw−1, (j+1)·bh−1)))`. -/
noncomputable def convertCellIndex (img : GoImage) (method : Method)
    (bw bh : ℕ) (i j : ℕ) : ℕ :=
  let rect := imageRect ((i : ℤ) * (bw : ℤ)) ((j : ℤ) * (bh : ℤ))
    (((i : ℤ) + 1) * (bw : ℤ) - 1) (((j : ℤ) + 1) * (bh : ℤ) - 1)
  let e := meanBlockColor img rect
  closestC64Color e.1 e.2 method

/-- One iteration of `ConvertImage`'s inner column loop: paint output pixels
`(2i, j)` and `(2i+1, j)` with the chosen palette color. -/
noncomputable def convertStep (img : GoImage) (method : Method) (bw bh : ℕ)
    (j : ℕ) (t : GoImage) (i : ℕ) : GoImage :=
  let c := paletteColor (convertCellIndex img method bw bh i j)
  (t.SetRGBA (2 * (i : ℤ)) (j : ℤ) c).SetRGBA (2 * (i : ℤ) + 1) (j : ℤ) c

/-- `ConvertImage`'s inner loop `for i := 0; i <= targetWidth; i++` with
`targetWidth = 320`: 321 iterations (the off-by-one of the source). -/
noncomputable def convertRow (img : GoImage) (method : Method) (bw bh : ℕ)
    (t : GoImage) (j : ℕ) : GoImage :=
  (List.range 321).foldl (convertStep img method bw bh j) t

/-- `ConvertImage` from converter.go (the value sent on `returnChannel`):
fresh `320 × targetHeight` grid, then the j/i double loop. -/
noncomputable def ConvertImage (img : GoImage) (method : Method) : GoImage :=
  let targetHeight := targetHeightZ img
  let targetImage : GoImage := ⟨320, targetHeight.toNat, fun _ _ => ⟨0, 0, 0, 0⟩⟩
  (List.range targetHeight.toNat).foldl
    (convertRow img method (blockWidthN img) (blockHeightN img)) targetImage

/-- The spec-side variant of `ConvertImage` for the refinement claim: the
same algorithm with the column loop bounded to `i < targetWidth/2 = 160`
instead of `i <= targetWidth`. -/
noncomputable def convertRowBounded (img : GoImage) (method : Method) (bw bh : ℕ)
    (t : GoImage) (j : ℕ) : GoImage :=
  (List.range 160).foldl (convertStep img method bw bh j) t

/-- `ConvertImage` with the corrected column loop bound (spec-side variant
for the refinement claim). -/
noncomputable def ConvertImageBounded (img : GoImage) (method : Method) : GoImage :=
  let targetHeight := targetHeightZ img
  let targetImage : GoImage := ⟨320, targetHeight.toNat, fun _ _ => ⟨0, 0, 0, 0⟩⟩
  (List.range targetHeight.toNat).foldl
    (convertRowBounded img method (blockWidthN img) (blockHeightN img)) targetImage

/-- A source image all of whose pixels carry the same color. -/
def uniformImage (W H : ℕ) (c : RGBA) : GoImage := ⟨W, H, fun _ _ => c⟩

/-- A concrete 3×2 all-white source image, used to instantiate theorems. -/
def sampleImage : GoImage := ⟨3, 2, fun _ _ => ⟨255, 255, 255, 255⟩⟩

/-- A concrete 1×1 all-white source image (smaller than one target block). -/
def whiteUnitImage : GoImage := ⟨1, 1, fun _ _ => ⟨255, 255, 255, 255⟩⟩

theorem SetRGBA_w (t : GoImage) (x y : ℤ) (c : RGBA) :
    (t.SetRGBA x y c).w = t.w := by
  unfold GoImage.SetRGBA
  split <;> rfl

theorem SetRGBA_h (t : GoImage) (x y : ℤ) (c : RGBA) :
    (t.SetRGBA x y c).h = t.h := by
  unfold GoImage.SetRGBA
  split <;> rfl

theorem SetRGBA_pix (t : GoImage) (x y : ℤ) (c : RGBA) (x' y' : ℤ) :
    (t.SetRGBA x y c).pix x' y' =
      if (0 ≤ x ∧ x < (t.w : ℤ) ∧ 0 ≤ y ∧ y < (t.h : ℤ)) ∧ x' = x ∧ y' = y then c
      else t.pix x' y' := by
  unfold GoImage.SetRGBA
  by_cases hb : 0 ≤ x ∧ x < (t.w : ℤ) ∧ 0 ≤ y ∧ y < (t.h : ℤ) <;>
    by_cases hxy : x' = x ∧ y' = y <;>
    simp [hb, hxy]

theorem convertStep_w (img : GoImage) (method : Method) (bw bh j : ℕ)
    (t : GoImage) (i : ℕ) :
    (convertStep img method bw bh j t i).w = t.w := by
  simp [convertStep, SetRGBA_w]

theorem convertStep_h (img : GoImage) (method : Method) (bw bh j : ℕ)
    (t : GoImage) (i : ℕ) :
    (convertStep img method bw bh j t i).h = t.h := by
  simp [convertStep, SetRGBA_h]

theorem foldl_GoImage_w {β : Type} (f : GoImage → β → GoImage)
    (hf : ∀ t b, (f t b).w = t.w) (l : List β) :
    ∀ t : GoImage, (l.foldl f t).w = t.w := by
  induction l with
  | nil => intro t; rfl
  | cons b l ih => intro t; rw [List.foldl_cons, ih, hf]

theorem foldl_GoImage_h {β : Type} (f : GoImage → β → GoImage)
    (hf : ∀ t b, (f t b).h = t.h) (l : List β) :
    ∀ t : GoImage, (l.foldl f t).h = t.h := by
  induction l with
  | nil => intro t; rfl
  | cons b l ih => intro t; rw [List.foldl_cons, ih, hf]

theorem convertRow_w (img : GoImage) (method : Method) (bw bh : ℕ)
    (t : GoImage) (j : ℕ) : (convertRow img method bw bh t j).w = t.w :=
  foldl_GoImage_w _ (convertStep_w img method bw bh j) _ t

theorem convertRow_h (img : GoImage) (method : Method) (bw bh : ℕ)
    (t : GoImage) (j : ℕ) : (convertRow img method bw bh t j).h = t.h :=
  foldl_GoImage_h _ (convertStep_h img method bw bh j) _ t

theorem ConvertImage_w (img : GoImage) (method : Method) :
    (ConvertImage img method).w = 320 := by
  unfold ConvertImage
  exact foldl_GoImage_w _ (convertRow_w img method _ _) _ _

theorem ConvertImage_h (img : GoImage) (method : Method) :
    (ConvertImage img method).h = (targetHeightZ img).toNat := by
  unfold ConvertImage
  exact foldl_GoImage_h _ (convertRow_h img method _ _) _ _

theorem convertStep_pix_ne (img : GoImage) (method : Method) (bw bh j : ℕ)
    (t : GoImage) (i : ℕ) (x' y' : ℤ)
    (hne : (x' ≠ 2 * (i : ℤ) ∧ x' ≠ 2 * (i : ℤ) + 1) ∨ y' ≠ (j : ℤ)) :
    (convertStep img method bw bh j t i).pix x' y' = t.pix x' y' := by
  rcases hne with ⟨h1, h2⟩ | hy
  · simp [convertStep, SetRGBA_pix, SetRGBA_w, SetRGBA_h, h1, h2]
  · simp [convertStep, SetRGBA_pix, SetRGBA_w, SetRGBA_h, hy]

theorem convertStep_pix_hit (img : GoImage) (method : Method) (bw bh j : ℕ)
    (t : GoImage) (i : ℕ) (hw : t.w = 320) (hh : (j : ℤ) < (t.h : ℤ)) (x' : ℤ)
    (hx : x' = 2 * (i : ℤ) ∨ x' = 2 * (i : ℤ) + 1) (hx320 : x' < 320)
    (hx0 : 0 ≤ x') :
    (convertStep img method bw bh j t i).pix x' (j : ℤ) =
      paletteColor (convertCellIndex img method bw bh i j) := by
  rcases hx with h | h
  · have hne : (2 * (i : ℤ)) ≠ 2 * (i : ℤ) + 1 := by omega
    have h1 : (0 : ℤ) ≤ 2 * (i : ℤ) := by positivity
    have h2 : 2 * (i : ℤ) < (t.w : ℤ) := by rw [hw]; omega
    have h3 : (0 : ℤ) ≤ (j : ℤ) := by positivity
    simp [convertStep, SetRGBA_pix, SetRGBA_w, SetRGBA_h, h, hne, h1, h2, h3, hh]
  · have h1 : (0 : ℤ) ≤ 2 * (i : ℤ) + 1 := by positivity
    have h2 : 2 * (i : ℤ) + 1 < (t.w : ℤ) := by rw [hw]; omega
    have h3 : (0 : ℤ) ≤ (j : ℤ) := by positivity
    simp [convertStep, SetRGBA_pix, SetRGBA_w, SetRGBA_h, h, h1, h2, h3, hh]

theorem convertRow_fold_pix (img : GoImage) (method : Method) (bw bh j : ℕ)
    (x : ℕ) (hx : x < 320) :
    ∀ (n : ℕ) (t : GoImage), t.w = 320 → (j : ℤ) < (t.h : ℤ) →
    ((List.range n).foldl (convertStep img method bw bh j) t).pix (x : ℤ) (j : ℤ) =
      if x / 2 < n then paletteColor (convertCellIndex img method bw bh (x / 2) j)
      else t.pix (x : ℤ) (j : ℤ) := by
  intro n
  induction n with
  | zero => intro t _ _; simp
  | succ n ih =>
    intro t hw hh
    rw [List.range_succ, List.foldl_append, List.foldl_cons, List.foldl_nil]
    have hTw : ((List.range n).foldl (convertStep img method bw bh j) t).w = 320 :=
      (foldl_GoImage_w _ (convertStep_w img method bw bh j) _ t).trans hw
    have hTh : ((List.range n).foldl (convertStep img method bw bh j) t).h = t.h :=
      foldl_GoImage_h _ (convertStep_h img method bw bh j) _ t
    rcases lt_trichotomy (x / 2) n with hlt | heq | hgt
    · have hxlt : x < 2 * n := by omega
      have hne : ((x : ℤ) ≠ 2 * (n : ℤ) ∧ (x : ℤ) ≠ 2 * (n : ℤ) + 1) ∨
          ((j : ℤ) ≠ (j : ℤ)) := by
        left
        constructor <;> omega
      rw [convertStep_pix_ne img method bw bh j _ n _ _ hne,
        ih t hw hh, if_pos hlt, if_pos (by omega)]
    · have hxeq : (x : ℤ) = 2 * (n : ℤ) ∨ (x : ℤ) = 2 * (n : ℤ) + 1 := by omega
      rw [convertStep_pix_hit img method bw bh j _ n hTw (hTh ▸ hh) _ hxeq
        (by omega) (by positivity), heq, if_pos (by omega)]
    · have hne : ((x : ℤ) ≠ 2 * (n : ℤ) ∧ (x : ℤ) ≠ 2 * (n : ℤ) + 1) ∨
          ((j : ℤ) ≠ (j : ℤ)) := by
        left
        constructor <;> omega
      rw [convertStep_pix_ne img method bw bh j _ n _ _ hne,
        ih t hw hh, if_neg (by omega), if_neg (by omega)]

theorem convertRow_pix (img : GoImage) (method : Method) (bw bh j x : ℕ)
    (hx : x < 320) (t : GoImage) (hw : t.w = 320) (hh : (j : ℤ) < (t.h : ℤ)) :
    (convertRow img method bw bh t j).pix (x : ℤ) (j : ℤ) =
      paletteColor (convertCellIndex img method bw bh (x / 2) j) := by
  unfold convertRow
  rw [convertRow_fold_pix img method bw bh j x hx 321 t hw hh, if_pos (by omega)]

theorem convertRow_pix_ne_row (img : GoImage) (method : Method) (bw bh m : ℕ)
    (x' y' : ℤ) (hy : y' ≠ (m : ℤ)) (t : GoImage) :
    (convertRow img method bw bh t m).pix x' y' = t.pix x' y' := by
  unfold convertRow
  generalize List.range 321 = l
  induction l generalizing t with
  | nil => rfl
  | cons b l ih =>
    rw [List.foldl_cons, ih, convertStep_pix_ne img method bw bh m t b _ _ (Or.inr hy)]

theorem convertRows_fold_pix (img : GoImage) (method : Method) (bw bh : ℕ)
    (x j : ℕ) (hx : x < 320) :
    ∀ (m : ℕ) (t : GoImage), t.w = 320 → (j : ℤ) < (t.h : ℤ) →
    ((List.range m).foldl (convertRow img method bw bh) t).pix (x : ℤ) (j : ℤ) =
      if j < m then paletteColor (convertCellIndex img method bw bh (x / 2) j)
      else t.pix (x : ℤ) (j : ℤ) := by
  intro m
  induction m with
  | zero => intro t _ _; simp
  | succ m ih =>
    intro t hw hh
    rw [List.range_succ, List.foldl_append, List.foldl_cons, List.foldl_nil]
    have hTw : ((List.range m).foldl (convertRow img method bw bh) t).w = 320 :=
      (foldl_GoImage_w _ (convertRow_w img method bw bh) _ t).trans hw
    have hTh : ((List.range m).foldl (convertRow img method bw bh) t).h = t.h :=
      foldl_GoImage_h _ (convertRow_h img method bw bh) _ t
    rcases lt_trichotomy j m with hlt | heq | hgt
    · rw [convertRow_pix_ne_row img method bw bh m _ _ (by omega) _,
        ih t hw hh, if_pos hlt, if_pos (by omega)]
    · subst heq
      rw [convertRow_pix img method bw bh j x hx _ hTw (hTh ▸ hh), if_pos (by omega)]
    · rw [convertRow_pix_ne_row img method bw bh m _ _ (by omega) _,
        ih t hw hh, if_neg (by omega), if_neg (by omega)]

/-- Pixel characterization of `ConvertImage`: every in-bounds output pixel
`(x, j)` carries the palette color chosen for target cell `(x/2, j)`. -/
theorem ConvertImage_pix (img : GoImage) (method : Method) (x j : ℕ)
    (hx : x < 320) (hj : j < (targetHeightZ img).toNat) :
    (ConvertImage img method).pix (x : ℤ) (j : ℤ) =
      paletteColor (convertCellIndex img method (blockWidthN img) (blockHeightN img)
        (x / 2) j) := by
  unfold ConvertImage
  rw [convertRows_fold_pix img method (blockWidthN img) (blockHeightN img) x j hx
    (targetHeightZ img).toNat _ rfl (by exact_mod_cast hj), if_pos hj]

theorem targetHeightZ_eq_ceil_mul_div (img : GoImage) :
    targetHeightZ img = Int.ceil ((320 * (img.h : ℚ)) / (img.w : ℚ)) := by
  unfold targetHeightZ aspectRatioQ
  rw [div_div_eq_mul_div]

theorem targetHeightZ_sample : targetHeightZ sampleImage = 214 := by
  unfold targetHeightZ aspectRatioQ sampleImage
  rw [Int.ceil_eq_iff]
  norm_num

/-- Claim C1: for every source image with positive width and height and every
metric, the `ConvertImage` output grid has width exactly 320 and height
exactly `⌈320·H/W⌉` (the source computes it as `⌈320 / (W/H)⌉`). -/
theorem claim_C1_output_dimensions (img : GoImage) (method : Method)
    (hW : 0 < img.w) (hH : 0 < img.h) :
    (ConvertImage img method).w = 320 ∧
    ((ConvertImage img method).h : ℤ) =
      Int.ceil ((320 * (img.h : ℚ)) / (img.w : ℚ)) := by
  refine ⟨ConvertImage_w img method, ?_⟩
  rw [ConvertImage_h img method, ← targetHeightZ_eq_ceil_mul_div img,
    Int.toNat_of_nonneg]
  apply Int.ceil_nonneg
  unfold aspectRatioQ
  positivity

/-- Witness for C1 at the concrete 3×2 image. -/
theorem claim_C1_output_dimensions_witness :
    0 < sampleImage.w ∧ 0 < sampleImage.h ∧
    (ConvertImage sampleImage Method.RGBMethod).w = 320 ∧
    ((ConvertImage sampleImage Method.RGBMethod).h : ℤ) =
      Int.ceil ((320 * (sampleImage.h : ℚ)) / (sampleImage.w : ℚ)) :=
  ⟨by decide, by decide,
   claim_C1_output_dimensions sampleImage Method.RGBMethod (by decide) (by decide)⟩

/-- Claim C2: horizontal pixel doubling — in every `ConvertImage` output row,
the pixel at even column `2k` equals the pixel at column `2k+1`. -/
theorem claim_C2_pixel_doubling (img : GoImage) (method : Method)
    (hW : 0 < img.w) (hH : 0 < img.h) (j k : ℕ)
    (hj : j < (ConvertImage img method).h) (hk : 2 * k + 1 < 320) :
    (ConvertImage img method).pix (2 * (k : ℤ)) (j : ℤ) =
      (ConvertImage img method).pix (2 * (k : ℤ) + 1) (j : ℤ) := by
  rw [ConvertImage_h] at hj
  have h1 := ConvertImage_pix img method (2 * k) j (by omega) hj
  have h2 := ConvertImage_pix img method (2 * k + 1) j (by omega) hj
  have e1 : (2 * k) / 2 = k := by omega
  have e2 : (2 * k + 1) / 2 = k := by omega
  rw [e1] at h1
  rw [e2] at h2
  push_cast at h1 h2
  rw [h1, h2]

/-- Witness for C2 at the concrete 3×2 image, row 0, column pair (0, 1). -/
theorem claim_C2_pixel_doubling_witness :
    0 < sampleImage.w ∧ 0 < sampleImage.h ∧
    0 < (ConvertImage sampleImage Method.CIE94).h ∧ 2 * 0 + 1 < 320 ∧
    (ConvertImage sampleImage Method.CIE94).pix (2 * ((0 : ℕ) : ℤ)) ((0 : ℕ) : ℤ) =
      (ConvertImage sampleImage Method.CIE94).pix (2 * ((0 : ℕ) : ℤ) + 1) ((0 : ℕ) : ℤ) := by
  have hj : 0 < (ConvertImage sampleImage Method.CIE94).h := by
    rw [ConvertImage_h, targetHeightZ_sample]
    decide
  exact ⟨by decide, by decide, hj, by decide,
    claim_C2_pixel_doubling sampleImage Method.CIE94 (by decide) (by decide) 0 0 hj
      (by decide)⟩

theorem distStep_fst (color : cielab) (rgbColor : RGBA) (method : Method)
    (acc : ℕ × Option ℝ) (i : ℕ) :
    (distStep color rgbColor method acc i).1 = i ∨
      (distStep color rgbColor method acc i).1 = acc.1 := by
  rcases acc with ⟨b, d⟩
  unfold distStep
  rcases d with _ | d
  · left; rfl
  · simp only []
    split
    · left; rfl
    · right; rfl

theorem foldl_distStep_le (color : cielab) (rgbColor : RGBA) (method : Method) :
    ∀ (l : List ℕ) (acc : ℕ × Option ℝ), (∀ i ∈ l, i ≤ 15) → acc.1 ≤ 15 →
    (l.foldl (distStep color rgbColor method) acc).1 ≤ 15 := by
  intro l
  induction l with
  | nil => intro acc _ h; exact h
  | cons b l ih =>
    intro acc hl hacc
    rw [List.foldl_cons]
    refine ih _ (fun i hi => hl i (List.mem_cons_of_mem b hi)) ?_
    rcases distStep_fst color rgbColor method acc b with h | h <;> rw [h]
    · exact hl b (List.mem_cons_self b l)
    · exact hacc

/-- Claim C4: `closestC64Color` always returns a palette index in `[0, 15]`,
for every (real-modelled) Lab sample, every RGB sample and every metric. -/
theorem claim_C4_closest_index_range (color : cielab) (rgbColor : RGBA)
    (method : Method) : closestC64Color color rgbColor method ≤ 15 := by
  unfold closestC64Color
  refine foldl_distStep_le color rgbColor method (List.range 16) (0, none) ?_ ?_
  · intro i hi
    rw [List.mem_range] at hi
    omega
  · exact Nat.zero_le 15

/-- Claim C5: self-distance is zero under all four metric variants. -/
theorem claim_C5_self_distance_zero (c : cielab) (rc : RGBA) :
    rgbDistance rc rc = 0 ∧ cie76distance c c = 0 ∧
    cie94distance c c = 0 ∧ cie2000distance c c = 0 := by
  refine ⟨by simp [rgbDistance], by simp [cie76distance], ?_, ?_⟩
  · simp [cie94distance]
  · norm_num [cie2000distance]

/-- Claim C6: the regression anchor
`rgbDistance({10,20,30}, {200,190,180}) = 87500`. -/
theorem claim_C6_rgb_distance_anchor :
    rgbDistance ⟨10, 20, 30, 255⟩ ⟨200, 190, 180, 255⟩ = 87500 := by
  norm_num [rgbDistance]

/-- Claim C7: `cie76distance` computes `ΔL² + Δa² + (b2−b2)²`; the third term
vanishes, so the result is `ΔL² + Δa²` and is independent of both colors'
`b` components. -/
theorem claim_C7_cie76_ignores_b (c1 c2 : cielab) :
    cie76distance c1 c2 = (c2.l - c1.l) ^ (2 : ℕ) + (c2.a - c1.a) ^ (2 : ℕ) ∧
    ∀ b1 b2 : ℝ, cie76distance ⟨c1.l, c1.a, b1⟩ ⟨c2.l, c2.a, b2⟩ =
      cie76distance c1 c2 := by
  constructor
  · simp [cie76distance]
  · intro b1 b2
    simp [cie76distance]

theorem quadform_nonneg (L u v r : ℝ) (hr : |r| ≤ 2) :
    0 ≤ L * L + u * u + v * v + r * u * v := by
  rcases abs_le.mp hr with ⟨h1, h2⟩
  nlinarith [sq_nonneg (u + v), sq_nonneg (u - v), mul_self_nonneg L]

theorem abs_rt_le_two (A q : ℝ) (h1 : q ≤ 1) :
    |(-Real.sin A) * (2 * Real.sqrt q)| ≤ 2 := by
  rw [abs_mul, abs_neg]
  have hs : |Real.sin A| ≤ 1 :=
    abs_le.mpr ⟨Real.neg_one_le_sin A, Real.sin_le_one A⟩
  have hq : |2 * Real.sqrt q| = 2 * Real.sqrt q := abs_of_nonneg (by positivity)
  rw [hq]
  have hle : Real.sqrt q ≤ 1 := by
    rw [show (1 : ℝ) = Real.sqrt 1 from (Real.sqrt_one).symm]
    exact Real.sqrt_le_sqrt h1
  nlinarith [Real.sqrt_nonneg q, abs_nonneg (Real.sin A)]

/-- Claim C8: `cie94distance` and `cie2000distance` are non-negative for all
input pairs (for CIE2000, the interaction term `RT·ΔC·ΔH` cannot outweigh the
squared terms because `|RT| ≤ 2`). -/
theorem claim_C8_distances_nonneg (col1 col2 : cielab) :
    0 ≤ cie94distance col1 col2 ∧ 0 ≤ cie2000distance col1 col2 := by
  constructor
  · simp only [cie94distance]
    exact add_nonneg (add_nonneg (mul_self_nonneg _) (mul_self_nonneg _))
      (mul_self_nonneg _)
  · simp only [cie2000distance]
    refine quadform_nonneg _ _ _ _ ?_
    apply abs_rt_le_two
    apply div_le_one_of_le₀
    · nlinarith [pow_nonneg (by positivity : (0 : ℝ) ≤ 25) 7]
    · positivity

/-- Claim C9: the source rectangle `Rect(0,0,0,5)` has zero area
(`pixelCount = 0`), yet `meanBlockColor` is a total function on it: the
division by the pixel count is performed unguarded (IEEE `0.0/0.0`; `0` in
this real-valued model), instead of the error the spec requires. -/
theorem claim_C9_no_zero_area_guard (img : GoImage) :
    ((imageRect 0 0 0 5).x1 - (imageRect 0 0 0 5).x0) *
      ((imageRect 0 0 0 5).y1 - (imageRect 0 0 0 5).y0) = 0 ∧
    meanBlockColor img (imageRect 0 0 0 5) = (⟨0, 0, 0⟩, ⟨0, 0, 0, 255⟩) := by
  constructor
  · simp [imageRect]
  · simp [meanBlockColor, blockSums, intsRange, imageRect, u8]

theorem convertStep_oob (img : GoImage) (method : Method) (bw bh j : ℕ)
    (t : GoImage) (i : ℕ) (hi : 160 ≤ i) (hw : t.w = 320) :
    convertStep img method bw bh j t i = t := by
  have h1 : ¬(2 * (i : ℤ) < (t.w : ℤ)) := by
    rw [hw]
    push_cast
    omega
  have h2 : ¬(2 * (i : ℤ) + 1 < (t.w : ℤ)) := by
    rw [hw]
    push_cast
    omega
  simp [convertStep, GoImage.SetRGBA, h1, h2]

theorem convertRow_eq_bounded (img : GoImage) (method : Method) (bw bh : ℕ)
    (t : GoImage) (hw : t.w = 320) (j : ℕ) :
    convertRow img method bw bh t j = convertRowBounded img method bw bh t j := by
  unfold convertRow convertRowBounded
  rw [(by norm_num : (321 : ℕ) = 160 + 161), List.range_add, List.foldl_append]
  have hid : ∀ l : List ℕ, (∀ i ∈ l, 160 ≤ i) → ∀ s : GoImage, s.w = 320 →
      l.foldl (convertStep img method bw bh j) s = s := by
    intro l
    induction l with
    | nil => intro _ s _; rfl
    | cons b l ih =>
      intro hl s hsw
      rw [List.foldl_cons, convertStep_oob img method bw bh j s b
        (hl b (List.mem_cons_self b l)) hsw]
      exact ih (fun i hi => hl i (List.mem_cons_of_mem b hi)) s hsw
  apply hid
  · intro i hi
    rw [List.mem_map] at hi
    rcases hi with ⟨k, _, hk⟩
    omega
  · exact (foldl_GoImage_w _ (convertStep_w img method bw bh j) _ t).trans hw

/-- Claim C10: the off-by-one column loop (`i <= 320`) only produces writes at
`x ≥ 320`, which `SetRGBA` silently drops, so `ConvertImage` is identical to
the same algorithm with the column loop bounded to `i < 160`. -/
theorem claim_C10_overshoot_equivalence (img : GoImage) (method : Method) :
    ConvertImage img method = ConvertImageBounded img method := by
  simp only [ConvertImage, ConvertImageBounded]
  have hfold : ∀ (l : List ℕ) (t : GoImage), t.w = 320 →
      l.foldl (convertRow img method (blockWidthN img) (blockHeightN img)) t =
      l.foldl (convertRowBounded img method (blockWidthN img) (blockHeightN img)) t := by
    intro l
    induction l with
    | nil => intro t _; rw [List.foldl_nil, List.foldl_nil]
    | cons b l ih =>
      intro t hw
      rw [List.foldl_cons, List.foldl_cons,
        ← convertRow_eq_bounded img method (blockWidthN img) (blockHeightN img) t hw b]
      exact ih _ ((convertRow_w img method _ _ t b).trans hw)
  apply hfold
  rfl

theorem mem_intsRange {lo hi x : ℤ} (h : x ∈ intsRange lo hi) :
    lo ≤ x ∧ x < hi := by
  unfold intsRange at h
  rw [List.mem_map] at h
  rcases h with ⟨k, hk, rfl⟩
  rw [List.mem_range] at hk
  omega

theorem length_intsRange (lo hi : ℤ) :
    (intsRange lo hi).length = (hi - lo).toNat := by
  unfold intsRange
  rw [List.length_map, List.length_range]

theorem foldl_blockSumStep_const (img : GoImage) (c : RGBA) (x : ℤ) :
    ∀ (l : List ℤ), (∀ y ∈ l, img.RGBAAt x y = c) → ∀ acc : cielab × rgb,
    l.foldl (blockSumStep img x) acc =
      (⟨acc.1.l + l.length * (convertRGBAtoCIELAB c).l,
        acc.1.a + l.length * (convertRGBAtoCIELAB c).a,
        acc.1.b + l.length * (convertRGBAtoCIELAB c).b⟩,
       ⟨acc.2.r + l.length * (c.r : ℝ),
        acc.2.g + l.length * (c.g : ℝ),
        acc.2.b + l.length * (c.b : ℝ)⟩) := by
  intro l
  induction l with
  | nil => intro _ acc; simp
  | cons y l ih =>
    intro hl acc
    rw [List.foldl_cons, ih (fun z hz => hl z (List.mem_cons_of_mem y hz))]
    simp only [blockSumStep, hl y (List.mem_cons_self y l), List.length_cons,
      Prod.mk.injEq, cielab.mk.injEq, rgb.mk.injEq]
    push_cast
    refine ⟨⟨by ring, by ring, by ring⟩, by ring, by ring, by ring⟩

theorem foldl_blockOuter_const (img : GoImage) (c : RGBA) (ly : List ℤ) :
    ∀ (lx : List ℤ), (∀ x ∈ lx, ∀ y ∈ ly, img.RGBAAt x y = c) →
    ∀ acc : cielab × rgb,
    lx.foldl (fun acc x => ly.foldl (blockSumStep img x) acc) acc =
      (⟨acc.1.l + lx.length * (ly.length * (convertRGBAtoCIELAB c).l),
        acc.1.a + lx.length * (ly.length * (convertRGBAtoCIELAB c).a),
        acc.1.b + lx.length * (ly.length * (convertRGBAtoCIELAB c).b)⟩,
       ⟨acc.2.r + lx.length * (ly.length * (c.r : ℝ)),
        acc.2.g + lx.length * (ly.length * (c.g : ℝ)),
        acc.2.b + lx.length * (ly.length * (c.b : ℝ))⟩) := by
  intro lx
  induction lx with
  | nil => intro _ acc; simp
  | cons x lx ih =>
    intro hl acc
    rw [List.foldl_cons,
      foldl_blockSumStep_const img c x ly (hl x (List.mem_cons_self x lx)) acc,
      ih (fun z hz => hl z (List.mem_cons_of_mem x hz))]
    simp only [List.length_cons, Prod.mk.injEq, cielab.mk.injEq, rgb.mk.injEq]
    push_cast
    refine ⟨⟨by ring, by ring, by ring⟩, by ring, by ring, by ring⟩

theorem blockSums_const (img : GoImage) (c : RGBA) (r : GoRect)
    (hread : ∀ x y : ℤ, r.x0 ≤ x → x < r.x1 → r.y0 ≤ y → y < r.y1 →
      img.RGBAAt x y = c) :
    blockSums img r =
      (⟨((r.x1 - r.x0).toNat : ℝ) * (((r.y1 - r.y0).toNat : ℝ) *
          (convertRGBAtoCIELAB c).l),
        ((r.x1 - r.x0).toNat : ℝ) * (((r.y1 - r.y0).toNat : ℝ) *
          (convertRGBAtoCIELAB c).a),
        ((r.x1 - r.x0).toNat : ℝ) * (((r.y1 - r.y0).toNat : ℝ) *
          (convertRGBAtoCIELAB c).b)⟩,
       ⟨((r.x1 - r.x0).toNat : ℝ) * (((r.y1 - r.y0).toNat : ℝ) * (c.r : ℝ)),
        ((r.x1 - r.x0).toNat : ℝ) * (((r.y1 - r.y0).toNat : ℝ) * (c.g : ℝ)),
        ((r.x1 - r.x0).toNat : ℝ) * (((r.y1 - r.y0).toNat : ℝ) * (c.b : ℝ))⟩) := by
  unfold blockSums
  have hmem : ∀ x ∈ intsRange r.x0 r.x1, ∀ y ∈ intsRange r.y0 r.y1,
      img.RGBAAt x y = c := by
    intro x hx y hy
    rcases mem_intsRange hx with ⟨hx0, hx1⟩
    rcases mem_intsRange hy with ⟨hy0, hy1⟩
    exact hread x y hx0 hx1 hy0 hy1
  rw [foldl_blockOuter_const img c _ _ hmem _]
  simp [length_intsRange]

theorem u8_natCast (n : ℕ) : u8 ((n : ℕ) : ℝ) = n := by
  unfold u8
  rw [Int.floor_natCast, Int.toNat_natCast]

theorem meanBlockColor_const (img : GoImage) (c : RGBA) (r : GoRect)
    (hread : ∀ x y : ℤ, r.x0 ≤ x → x < r.x1 → r.y0 ≤ y → y < r.y1 →
      img.RGBAAt x y = c)
    (hx : r.x0 < r.x1) (hy : r.y0 < r.y1) :
    meanBlockColor img r = (convertRGBAtoCIELAB c, ⟨c.r, c.g, c.b, 255⟩) := by
  unfold meanBlockColor
  rw [blockSums_const img c r hread]
  have hA : (((r.x1 - r.x0).toNat : ℕ) : ℝ) = ((r.x1 - r.x0 : ℤ) : ℝ) := by
    rw [← Int.cast_natCast, Int.toNat_of_nonneg (by omega)]
  have hB : (((r.y1 - r.y0).toNat : ℕ) : ℝ) = ((r.y1 - r.y0 : ℤ) : ℝ) := by
    rw [← Int.cast_natCast, Int.toNat_of_nonneg (by omega)]
  have hAne : ((r.x1 - r.x0 : ℤ) : ℝ) ≠ 0 := by
    simp only [ne_eq, Int.cast_eq_zero]
    omega
  have hBne : ((r.y1 - r.y0 : ℤ) : ℝ) ≠ 0 := by
    simp only [ne_eq, Int.cast_eq_zero]
    omega
  have hdiv : ∀ v : ℝ,
      (((r.x1 - r.x0).toNat : ℕ) : ℝ) * ((((r.y1 - r.y0).toNat : ℕ) : ℝ) * v) /
        (((r.x1 - r.x0) * (r.y1 - r.y0) : ℤ) : ℝ) = v := by
    intro v
    rw [hA, hB, Int.cast_mul, div_eq_iff (mul_ne_zero hAne hBne)]
    ring
  dsimp only
  simp only [hdiv]
  have hu : ∀ n : ℕ, u8 ((n : ℕ) : ℝ) = n := u8_natCast
  rw [hu c.r, hu c.g, hu c.b]

theorem convertCellIndex_uniform (W H : ℕ) (c : RGBA) (method : Method)
    (bw bh i j : ℕ) (hbw : 2 ≤ bw) (hbh : 2 ≤ bh)
    (hiW : (i + 1) * bw ≤ W) (hjH : (j + 1) * bh ≤ H) :
    convertCellIndex (uniformImage W H c) method bw bh i j =
      closestC64Color (convertRGBAtoCIELAB c) ⟨c.r, c.g, c.b, 255⟩ method := by
  have hib : ((i : ℤ) + 1) * (bw : ℤ) = (i : ℤ) * (bw : ℤ) + (bw : ℤ) := by ring
  have hjb : ((j : ℤ) + 1) * (bh : ℤ) = (j : ℤ) * (bh : ℤ) + (bh : ℤ) := by ring
  have hbwZ : (2 : ℤ) ≤ (bw : ℤ) := by exact_mod_cast hbw
  have hbhZ : (2 : ℤ) ≤ (bh : ℤ) := by exact_mod_cast hbh
  have hiWZ : ((i : ℤ) + 1) * (bw : ℤ) ≤ (W : ℤ) := by exact_mod_cast hiW
  have hjHZ : ((j : ℤ) + 1) * (bh : ℤ) ≤ (H : ℤ) := by exact_mod_cast hjH
  have hx1 : (i : ℤ) * (bw : ℤ) ≤ ((i : ℤ) + 1) * (bw : ℤ) - 1 := by omega
  have hy1 : (j : ℤ) * (bh : ℤ) ≤ ((j : ℤ) + 1) * (bh : ℤ) - 1 := by omega
  have hrect : imageRect ((i : ℤ) * (bw : ℤ)) ((j : ℤ) * (bh : ℤ))
      (((i : ℤ) + 1) * (bw : ℤ) - 1) (((j : ℤ) + 1) * (bh : ℤ) - 1) =
      ⟨(i : ℤ) * (bw : ℤ), (j : ℤ) * (bh : ℤ),
        ((i : ℤ) + 1) * (bw : ℤ) - 1, ((j : ℤ) + 1) * (bh : ℤ) - 1⟩ := by
    unfold imageRect
    rw [min_eq_left hx1, min_eq_left hy1, max_eq_right hx1, max_eq_right hy1]
  have himul : (0 : ℤ) ≤ (i : ℤ) * (bw : ℤ) := by positivity
  have hjmul : (0 : ℤ) ≤ (j : ℤ) * (bh : ℤ) := by positivity
  have hread : ∀ x y : ℤ, (i : ℤ) * (bw : ℤ) ≤ x →
      x < ((i : ℤ) + 1) * (bw : ℤ) - 1 → (j : ℤ) * (bh : ℤ) ≤ y →
      y < ((j : ℤ) + 1) * (bh : ℤ) - 1 →
      (uniformImage W H c).RGBAAt x y = c := by
    intro x y h1 h2 h3 h4
    have hrd : (uniformImage W H c).RGBAAt x y =
        if 0 ≤ x ∧ x < (W : ℤ) ∧ 0 ≤ y ∧ y < (H : ℤ) then c else ⟨0, 0, 0, 0⟩ := rfl
    rw [hrd, if_pos]
    exact ⟨by omega, by omega, by omega, by omega⟩
  unfold convertCellIndex
  dsimp only
  rw [hrect, meanBlockColor_const (uniformImage W H c) c _ hread
    (by exact (by omega : (i : ℤ) * (bw : ℤ) < ((i : ℤ) + 1) * (bw : ℤ) - 1))
    (by exact (by omega : (j : ℤ) * (bh : ℤ) < ((j : ℤ) + 1) * (bh : ℤ) - 1))]

/-- Claim C3 (amended): for a uniformly-colored source image whose computed
block dimensions satisfy `blockWidth ≥ 2` and `blockHeight ≥ 2` (so every
sampled block is non-empty and in bounds; small sources violate this), every
in-bounds output pixel of `ConvertImage` is the palette color closest to the
uniform color under the selected metric. -/
theorem claim_C3_uniform_image (W H : ℕ) (c : RGBA) (method : Method)
    (hbw : 2 ≤ blockWidthN (uniformImage W H c))
    (hbh : 2 ≤ blockHeightN (uniformImage W H c))
    (x j : ℕ) (hx : x < 320)
    (hj : j < (ConvertImage (uniformImage W H c) method).h) :
    (ConvertImage (uniformImage W H c) method).pix (x : ℤ) (j : ℤ) =
      paletteColor (closestC64Color (convertRGBAtoCIELAB c)
        ⟨c.r, c.g, c.b, 255⟩ method) := by
  rw [ConvertImage_h] at hj
  rw [ConvertImage_pix _ _ x j hx hj]
  congr 1
  apply convertCellIndex_uniform W H c method _ _ (x / 2) j hbw hbh
  · calc (x / 2 + 1) * blockWidthN (uniformImage W H c)
        ≤ 160 * blockWidthN (uniformImage W H c) :=
          Nat.mul_le_mul_right _ (by omega)
      _ = (W / 160) * 160 := by
          rw [Nat.mul_comm]
          rfl
      _ ≤ W := Nat.div_mul_le_self W 160
  · calc (j + 1) * blockHeightN (uniformImage W H c)
        ≤ (targetHeightZ (uniformImage W H c)).toNat *
            blockHeightN (uniformImage W H c) :=
          Nat.mul_le_mul_right _ (by omega)
      _ = (H / (targetHeightZ (uniformImage W H c)).toNat) *
            (targetHeightZ (uniformImage W H c)).toNat := by
          rw [Nat.mul_comm]
          rfl
      _ ≤ H := Nat.div_mul_le_self H _

/-- Witness for the amended C3 at a concrete uniform 640×400 white image. -/
theorem claim_C3_uniform_image_witness :
    2 ≤ blockWidthN (uniformImage 640 400 ⟨255, 255, 255, 255⟩) ∧
    2 ≤ blockHeightN (uniformImage 640 400 ⟨255, 255, 255, 255⟩) ∧
    (0 : ℕ) < 320 ∧
    0 < (ConvertImage (uniformImage 640 400 ⟨255, 255, 255, 255⟩) Method.CIE2000).h ∧
    (ConvertImage (uniformImage 640 400 ⟨255, 255, 255, 255⟩) Method.CIE2000).pix
        ((0 : ℕ) : ℤ) ((0 : ℕ) : ℤ) =
      paletteColor (closestC64Color (convertRGBAtoCIELAB ⟨255, 255, 255, 255⟩)
        ⟨255, 255, 255, 255⟩ Method.CIE2000) := by
  have hth : targetHeightZ (uniformImage 640 400 ⟨255, 255, 255, 255⟩) = 200 := by
    unfold targetHeightZ aspectRatioQ uniformImage
    rw [Int.ceil_eq_iff]
    norm_num
  have hbw : 2 ≤ blockWidthN (uniformImage 640 400 ⟨255, 255, 255, 255⟩) := by decide
  have hbh : 2 ≤ blockHeightN (uniformImage 640 400 ⟨255, 255, 255, 255⟩) := by
    unfold blockHeightN
    rw [hth]
    decide
  have hj : 0 < (ConvertImage (uniformImage 640 400 ⟨255, 255, 255, 255⟩)
      Method.CIE2000).h := by
    rw [ConvertImage_h, hth]
    decide
  exact ⟨hbw, hbh, by decide, hj,
    claim_C3_uniform_image 640 400 ⟨255, 255, 255, 255⟩ Method.CIE2000
      hbw hbh 0 0 (by decide) hj⟩

theorem lab_of_zero : convertRGBAtoCIELAB ⟨0, 0, 0, 0⟩ = ⟨0, 0, 0⟩ := by
  unfold convertRGBAtoCIELAB convertRGBAtoXYZ
  norm_num

theorem paletteColor_val_0 : paletteColor 0 = ⟨0x00, 0x00, 0x00, 0xFF⟩ := by decide

theorem paletteColor_val_1 : paletteColor 1 = ⟨0xFF, 0xFF, 0xFF, 0xFF⟩ := by decide

theorem paletteColor_val_2 : paletteColor 2 = ⟨0x67, 0x37, 0x2B, 0xFF⟩ := by decide

theorem paletteColor_val_3 : paletteColor 3 = ⟨0x6F, 0xA3, 0xB1, 0xFF⟩ := by decide

theorem paletteColor_val_4 : paletteColor 4 = ⟨0x6F, 0x3C, 0x85, 0xFF⟩ := by decide

theorem paletteColor_val_5 : paletteColor 5 = ⟨0x58, 0x8C, 0x43, 0xFF⟩ := by decide

theorem paletteColor_val_6 : paletteColor 6 = ⟨0x34, 0x28, 0x79, 0xFF⟩ := by decide

theorem paletteColor_val_7 : paletteColor 7 = ⟨0xB7, 0xC6, 0x6E, 0xFF⟩ := by decide

theorem paletteColor_val_8 : paletteColor 8 = ⟨0x6F, 0x4F, 0x25, 0xFF⟩ := by decide

theorem paletteColor_val_9 : paletteColor 9 = ⟨0x42, 0x39, 0x00, 0xFF⟩ := by decide

theorem paletteColor_val_10 : paletteColor 10 = ⟨0x99, 0x66, 0x59, 0xFF⟩ := by decide

theorem paletteColor_val_11 : paletteColor 11 = ⟨0x43, 0x43, 0x43, 0xFF⟩ := by decide

theorem paletteColor_val_12 : paletteColor 12 = ⟨0x6B, 0x6B, 0x6B, 0xFF⟩ := by decide

theorem paletteColor_val_13 : paletteColor 13 = ⟨0x9A, 0xD1, 0x83, 0xFF⟩ := by decide

theorem paletteColor_val_14 : paletteColor 14 = ⟨0x6B, 0x5E, 0xB4, 0xFF⟩ := by decide

theorem paletteColor_val_15 : paletteColor 15 = ⟨0x95, 0x95, 0x95, 0xFF⟩ := by decide

/-- Under the RGB metric, a pure black sample maps to palette index 0. -/
theorem closestC64Color_rgb_black (color : cielab) :
    closestC64Color color ⟨0, 0, 0, 255⟩ Method.RGBMethod = 0 := by
  norm_num [closestC64Color, List.range_succ, distStep, rgbDistance,
    paletteColor_val_0, paletteColor_val_1, paletteColor_val_2, paletteColor_val_3,
    paletteColor_val_4, paletteColor_val_5, paletteColor_val_6, paletteColor_val_7,
    paletteColor_val_8, paletteColor_val_9, paletteColor_val_10, paletteColor_val_11,
    paletteColor_val_12, paletteColor_val_13, paletteColor_val_14, paletteColor_val_15]

/-- Under the RGB metric, a pure white sample maps to palette index 1. -/
theorem closestC64Color_rgb_white (color : cielab) :
    closestC64Color color ⟨255, 255, 255, 255⟩ Method.RGBMethod = 1 := by
  norm_num [closestC64Color, List.range_succ, distStep, rgbDistance,
    paletteColor_val_0, paletteColor_val_1, paletteColor_val_2, paletteColor_val_3,
    paletteColor_val_4, paletteColor_val_5, paletteColor_val_6, paletteColor_val_7,
    paletteColor_val_8, paletteColor_val_9, paletteColor_val_10, paletteColor_val_11,
    paletteColor_val_12, paletteColor_val_13, paletteColor_val_14, paletteColor_val_15]

theorem targetHeightZ_whiteUnit : targetHeightZ whiteUnitImage = 320 := by
  unfold targetHeightZ aspectRatioQ whiteUnitImage
  rw [Int.ceil_eq_iff]
  norm_num

/-- On the 1×1 white image the computed block sizes are zero, the sampled
rectangle degenerates to the out-of-bounds pixel `(-1,-1)`, and the cell
therefore quantizes the zero color — palette index 0 under the RGB metric. -/
theorem convertCellIndex_whiteUnit :
    convertCellIndex whiteUnitImage Method.RGBMethod 0 0 0 0 = 0 := by
  unfold convertCellIndex
  dsimp only
  norm_num [imageRect, meanBlockColor, blockSums, blockSumStep, intsRange,
    GoImage.RGBAAt, whiteUnitImage, u8, lab_of_zero, List.range_succ,
    min_def, max_def, Int.toNat_one]
  exact closestC64Color_rgb_black _

/-- Counterexample to C3 as stated: on the uniform white 1×1 source image
(positive dimensions), the output pixel `(0,0)` under the RGB metric is NOT
the palette color closest to white (it is black, index 0, because the
degenerate blocks sample out-of-bounds zero pixels). -/
theorem claim_C3_counterexample :
    (ConvertImage whiteUnitImage Method.RGBMethod).pix 0 0 ≠
      paletteColor (closestC64Color (convertRGBAtoCIELAB ⟨255, 255, 255, 255⟩)
        ⟨255, 255, 255, 255⟩ Method.RGBMethod) := by
  have hbw : blockWidthN whiteUnitImage = 0 := by decide
  have hbh : blockHeightN whiteUnitImage = 0 := by
    unfold blockHeightN
    rw [targetHeightZ_whiteUnit]
    decide
  have hj : 0 < (targetHeightZ whiteUnitImage).toNat := by
    rw [targetHeightZ_whiteUnit]
    decide
  have h0 := ConvertImage_pix whiteUnitImage Method.RGBMethod 0 0 (by omega) hj
  rw [hbw, hbh] at h0
  norm_num at h0
  rw [h0, convertCellIndex_whiteUnit, closestC64Color_rgb_white]
  decide

end C64
